import Mathlib

/-!
Verification of the JTLogistics flow-orchestration engine against its
specification.  The Python sources under `src/` are shallowly embedded as
executable Lean definitions: pure helpers become functions, stateful loops
become explicit state passing, network and filesystem effects become oracle
parameters, and raised exceptions become `Except`/`Option` results.
-/

namespace JTL

/-! ## Python string primitives -/

/-- Python `str.strip()` on a character list: drop whitespace from both ends. -/
def pyStripList (l : List Char) : List Char :=
  ((l.dropWhile Char.isWhitespace).reverse.dropWhile Char.isWhitespace).reverse

/-- Python `str.strip()`. -/
def pyStrip (s : String) : String :=
  String.mk (pyStripList s.data)

/-- Python slice `s[a:b]` for non-negative `a`, `b` (clamping, never raising). -/
def pySlice (s : String) (a b : Nat) : String :=
  String.mk ((s.data.drop a).take (b - a))

/-- Python slice `s[a:]` for non-negative `a`. -/
def pySliceFrom (s : String) (a : Nat) : String :=
  String.mk (s.data.drop a)

/-- Python `s.startswith("#")`. -/
def startsWithHash (s : String) : Bool :=
  match s.data with
  | [] => false
  | c :: _ => c = '#'

/-! ## FixedWidthSlice (`GNCOrders_Converter._slice`, gnc_converter.py:86-89)

`return (line[start - 1:end] if len(line) >= end else line[start - 1:]).strip()` -/

def GNCOrders_Converter_slice (line : String) (start «end» : Nat) : String :=
  if line.data.length ≥ «end» then pyStrip (pySlice line (start - 1) «end»)
  else pyStrip (pySliceFrom line (start - 1))

/-! ## FileSplitter (`FileSplitter.split_by_field`, common/splitter.py:13-84)

The loop is embedded as structural recursion over the file's lines (each
line already has its trailing newline removed, as `raw.rstrip("\n")` does).
The state is the current group: `none` mirrors `current_order is None` with
an empty buffer, `some (k, buf)` carries the current key and the buffer in
reverse order.  The result models the sequence of files written: one
`(key, lines)` pair per flushed group, in flush order; the file created for
a group is named `key ++ ".txt"`. -/

/-- `line[start-1:end].strip()` — the grouping key of a line (splitter.py:55). -/
def lineKey (start «end» : Nat) (line : String) : String :=
  pyStrip (pySlice line (start - 1) «end»)

/-- The per-line loop of `split_by_field` after the first-line comment check:
blank lines are skipped, a literal `#EOT` (after strip) stops consumption and
flushes the current buffer, otherwise the line joins the current group or
closes it when the key changes. -/
def splitGo (start «end» : Nat) : List String → Option (String × List String) →
    List (String × List String)
  | [], none => []
  | [], some (k, buf) => [(k, buf.reverse)]
  | ln :: rest, st =>
      if pyStrip ln = "" then splitGo start «end» rest st
      else if pyStrip ln = "#EOT" then
        match st with
        | none => []
        | some (k, buf) => [(k, buf.reverse)]
      else
        let key := lineKey start «end» ln
        match st with
        | none => splitGo start «end» rest (some (key, [ln]))
        | some (k, buf) =>
            if key = k then splitGo start «end» rest (some (k, ln :: buf))
            else (k, buf.reverse) :: splitGo start «end» rest (some (key, [ln]))

/-- `FileSplitter.split_by_field` on the list of input lines: the first raw
line is discarded when its stripped form starts with `#` (splitter.py:46-47),
then the grouping loop runs from the empty state. -/
def split_by_field (start «end» : Nat) (lines : List String) :
    List (String × List String) :=
  match lines with
  | [] => []
  | first :: rest =>
      if startsWithHash (pyStrip first) then splitGo start «end» rest none
      else splitGo start «end» (first :: rest) none

/-! ## DateRangeUpdater (common/date_filter_updater.py)

`get_yesterday_range` reads the current UTC date twice in immediate
succession; the embedding takes that calendar date once as a parameter.
`datetime - timedelta(days=n)` is proleptic-Gregorian day arithmetic, and
the `replace(...)`/`strftime` calls pin the time-of-day parts to the fixed
strings `00:00:00.000` and `23:59:59.999` (microsecond `999000` printed by
`%f` and truncated by `[:-3]`). -/

structure Date where
  year : Nat
  month : Nat
  day : Nat
deriving DecidableEq, Repr

/-- Gregorian leap-year test. -/
def isLeap (y : Nat) : Bool :=
  y % 4 == 0 && (y % 100 != 0 || y % 400 == 0)

/-- Number of days in a month of the Gregorian calendar. -/
def daysInMonth (y m : Nat) : Nat :=
  if m = 2 then (if isLeap y then 29 else 28)
  else if m = 4 ∨ m = 6 ∨ m = 9 ∨ m = 11 then 30
  else 31

/-- The previous calendar day. -/
def prevDay (d : Date) : Date :=
  if d.day > 1 then ⟨d.year, d.month, d.day - 1⟩
  else if d.month > 1 then ⟨d.year, d.month - 1, daysInMonth d.year (d.month - 1)⟩
  else ⟨d.year - 1, 12, 31⟩

/-- `date - timedelta(days=n)`. -/
def subDays (d : Date) : Nat → Date
  | 0 => d
  | n + 1 => prevDay (subDays d n)

/-- Zero-padded two-digit field of `strftime` (`%m`, `%d`). -/
def pad2 (n : Nat) : String :=
  if n < 10 then "0" ++ toString n else toString n

/-- Zero-padded four-digit year field of `strftime` (`%Y`). -/
def pad4 (n : Nat) : String :=
  if n < 10 then "000" ++ toString n
  else if n < 100 then "00" ++ toString n
  else if n < 1000 then "0" ++ toString n
  else toString n

/-- `strftime("%Y-%m-%dT%H:%M:%S.%f")[:-3] + "Z"` at a fixed time of day. -/
def fmtStamp (d : Date) (timePart : String) : String :=
  pad4 d.year ++ "-" ++ pad2 d.month ++ "-" ++ pad2 d.day ++ "T" ++ timePart ++ "Z"

/-- `DateRangeUpdater.get_yesterday_range` (date_filter_updater.py:19-30) at
UTC date `today`: start is `today - 7 days` at `00:00:00.000`, end is
`today - 1 day` at `23:59:59.999`. -/
def get_yesterday_range (today : Date) : String × String :=
  (fmtStamp (subDays today 7) "00:00:00.000",
   fmtStamp (subDays today 1) "23:59:59.999")

/-! ## Payload document model (for `DateRangeUpdater.update_payload_file`)

The payload JSON document is embedded as an insertion-ordered association
list of top-level keys, with a small JSON value type.  Python `dict`
assignment replaces the value of an existing key in place and appends a new
key at the end; `lookupKey`/`setKey` mirror that. -/

inductive JVal where
  | str : String → JVal
  | num : Int → JVal
  | bool : Bool → JVal
  | null : JVal
  | arr : List JVal → JVal
  | obj : List (String × JVal) → JVal
deriving Repr

/-- First-match association lookup (`d.get(k)` / `d[k]`). -/
def lookupKey (l : List (String × JVal)) (k : String) : Option JVal :=
  match l with
  | [] => none
  | (k', v) :: rest => if k' = k then some v else lookupKey rest k

/-- `k in d`. -/
def hasKey (l : List (String × JVal)) (k : String) : Bool :=
  (lookupKey l k).isSome

/-- `d[k] = v`: replace in place when the key exists, else append. -/
def setKey (l : List (String × JVal)) (k : String) (v : JVal) :
    List (String × JVal) :=
  match l with
  | [] => [(k, v)]
  | (k', v') :: rest =>
      if k' = k then (k', v) :: rest else (k', v') :: setKey rest k v

/-- `data.get("filters", {})`, reading the filters object's fields
(the payload's `filters` entry, when present, is a JSON object). -/
def getFilters (data : List (String × JVal)) : List (String × JVal) :=
  match lookupKey data "filters" with
  | some (JVal.obj fs) => fs
  | _ => []

/-- The three paired rewrites of `update_payload_file`
(date_filter_updater.py:42-57): each `*_from`/`*_to` pair is overwritten
with `start`/`end` exactly when both keys are already present. -/
def updatePair (fs : List (String × JVal)) (kFrom kTo start «end» : String) :
    List (String × JVal) :=
  if hasKey fs kFrom && hasKey fs kTo then
    setKey (setKey fs kFrom (JVal.str start)) kTo (JVal.str «end»)
  else fs

def updateFilters (fs : List (String × JVal)) (start «end» : String) :
    List (String × JVal) :=
  let fs1 := updatePair fs "created_from" "created_to" start «end»
  let fs2 := updatePair fs1 "fulfilled_from" "fulfilled_to" start «end»
  updatePair fs2 "completed_from" "completed_to" start «end»

/-- `DateRangeUpdater.update_payload_file` (date_filter_updater.py:32-65) on
the loaded document, run on UTC date `today`: rewrite the recognized pairs
inside `filters` and write the filters object back under `"filters"`. -/
def update_payload_file (today : Date) (data : List (String × JVal)) :
    List (String × JVal) :=
  let r := get_yesterday_range today
  setKey data "filters" (JVal.obj (updateFilters (getFilters data) r.1 r.2))

/-! ## Packaging candidates and selection

A packaging candidate is one entry of the material API's `packagings` list.
`base_packaging_quantity` as found in the JSON is `none` when the key is
absent or null; otherwise an int, a string, or some other JSON value. -/

inductive QVal where
  | int : Int → QVal
  | str : String → QVal
  | absent : QVal
  | other : QVal
deriving DecidableEq, Repr

structure Packaging where
  packaging : Option String
  base_packaging_quantity : QVal
deriving DecidableEq, Repr

/-- Python `x or "EA"` on a string. -/
def orEA (s : String) : String := if s = "" then "EA" else s

/-- GNC usability test (gnc_converter.py:155): `isinstance(qty, int) and qty > 0`. -/
def gncUsable : QVal → Option Int
  | .int n => if 0 < n then some n else none
  | _ => none

/-- One step of the GNC selection loop (gnc_converter.py:153-158): keep the
currently selected `(smallest_qty, selected)`, replacing it when this
candidate has a usable quantity that is strictly smaller (or none was
selected yet). -/
def gncStep (acc : Option Int × String) (p : Packaging) : Option Int × String :=
  match gncUsable p.base_packaging_quantity with
  | some n =>
      match acc.1 with
      | none => (some n, p.packaging.getD "EA")
      | some m => if n < m then (some n, p.packaging.getD "EA") else acc
  | none => acc

def gncScan (ps : List Packaging) (acc : Option Int × String) : Option Int × String :=
  match ps with
  | [] => acc
  | p :: rest => gncScan rest (gncStep acc p)

/-- `select_packaging` (gnc_converter.py:145-160): empty list gives `"EA"`,
otherwise scan for the smallest positive integer quantity starting from
`(None, "EA")`, and finally apply `str(selected).strip() or "EA"`. -/
def select_packaging (ps : List Packaging) : String :=
  if ps.isEmpty then "EA"
  else orEA (pyStrip (gncScan ps (none, "EA")).2)

/-- Parse a decimal integer literal the way Python `int(str)` does
(surrounding whitespace and an optional sign allowed; anything else raises,
which the FC key function turns into `float("inf")`). -/
def digitsToNat : List Char → Option Nat
  | [] => none
  | l =>
      if l.all Char.isDigit then
        some (l.foldl (fun acc c => acc * 10 + (c.toNat - 48)) 0)
      else none

def pyIntParse (s : String) : Option Int :=
  match pyStripList s.data with
  | '-' :: rest => (digitsToNat rest).map (fun n => -(n : Int))
  | '+' :: rest => (digitsToNat rest).map (fun n => (n : Int))
  | l => (digitsToNat l).map (fun n => (n : Int))

/-- FC key function `base_qty` (FCorders_converter.py:259-266): `int(v)`,
with `None` and unparseable values mapped to `float("inf")` (here `none`). -/
def fcBaseQty (p : Packaging) : Option Int :=
  match p.base_packaging_quantity with
  | .int n => some n
  | .str s => pyIntParse s
  | .absent => none
  | .other => none

/-- Strict order on `Option Int` with `none` as `+∞` (comparison of the
`base_qty` key values inside Python `min`). -/
def infLt : Option Int → Option Int → Bool
  | some a, some b => a < b
  | some _, none => true
  | none, _ => false

/-- Python `min(iterable, key=f)`: left fold keeping the first minimum. -/
def pyMinBy (f : Packaging → Option Int) (best : Packaging) :
    List Packaging → Packaging
  | [] => best
  | p :: rest => pyMinBy f (if infLt (f p) (f best) then p else best) rest

/-- `if pkg: packaging = str(pkg).strip()` with `packaging = "3"` otherwise
(FCorders_converter.py:219, 253-270). -/
def fcRender (pkg : Option String) : String :=
  match pkg with
  | some s => if s = "" then "3" else pyStrip s
  | none => "3"

/-- The FC packaging choice for a non-empty `packagings` list
(FCorders_converter.py:252-270): a single candidate is taken directly,
otherwise the minimum under `base_qty` (first on ties) is taken. -/
def fcSelect (ps : List Packaging) : String :=
  match ps with
  | [] => "3"
  | [p] => fcRender p.packaging
  | p :: rest => fcRender (pyMinBy fcBaseQty p rest).packaging

/-! ## PackagingCache (`resolve_packaging_via_api`, gnc_converter.py:162-302)

The external material API is an oracle from the trimmed lookup key to a
result: `.failure` covers a request exception, a non-JSON body or a JSON
body without a truthy `materials` list handled by the same fallback, and
`.ok` carries the `materials` list (each material reduced to its
`packagings`).  The per-conversion state is the cache dict plus the ordered
log of keys actually sent to the API. -/

inductive ApiResult where
  | failure : ApiResult
  | ok : List (List Packaging) → ApiResult

/-- The packaging computed by a fresh (non-cached) GNC lookup: `"EA"` unless
the response carries a truthy `materials` list, in which case
`select_packaging(materials[0].packagings)` (gnc_converter.py:172, 292-295). -/
def gncFresh (res : ApiResult) : String :=
  match res with
  | .failure => "EA"
  | .ok [] => "EA"
  | .ok (m :: _) => select_packaging m

def cacheLookup : List (String × String) → String → Option String
  | [], _ => none
  | (k', v) :: rest, k => if k' = k then some v else cacheLookup rest k

structure RunState where
  cache : List (String × String)
  calls : List String
deriving Repr

/-- `resolve_packaging_via_api(material_code)` as a state transformer:
falsy material or falsy trimmed key short-circuits to `"EA"`; a cached key
is answered from the cache with no external call; otherwise one external
call is made and `packaging or "EA"` is stored and returned. -/
def resolve_packaging_via_api (api : String → ApiResult) (st : RunState)
    (material : String) : String × RunState :=
  if material = "" then ("EA", st)
  else
    let key := pyStrip material
    if key = "" then ("EA", st)
    else
      match cacheLookup st.cache key with
      | some v => (v, st)
      | none =>
          let p := orEA (gncFresh (api key))
          (p, ⟨(key, p) :: st.cache, st.calls ++ [key]⟩)

/-- The per-line resolution loop of `convert` (gnc_converter.py:304-313),
threading the cache state. -/
def resolveAllGo (api : String → ApiResult) :
    List String → RunState → List String × RunState
  | [], st => ([], st)
  | m :: rest, st =>
      let r := resolve_packaging_via_api api st m
      let rs := resolveAllGo api rest r.2
      (r.1 :: rs.1, rs.2)

/-- One conversion invocation: `material_packaging_cache = {}` is created
afresh inside `convert` (gnc_converter.py:138), so the loop starts from the
empty state. -/
def convertResolveAll (api : String → ApiResult) (materials : List String) :
    List String × RunState :=
  resolveAllGo api materials ⟨[], []⟩

/-- The fresh-resolution value of a material: what any resolution of it
returns in the run (first computed, later served from the cache). -/
def resolvedValue (api : String → ApiResult) (m : String) : String :=
  if pyStrip m = "" then "EA" else orEA (gncFresh (api (pyStrip m)))

/-! ## Inbound POST retry loop (`InboundProcessor.process`, inbound_processor.py:356-391)

Each attempt's outcome comes from an oracle indexed by the 1-based attempt
number: either an HTTP response (status and body) or a raised network
error.  The mutable loop state is `status_code`, `response_text` and
`last_exception`; note that a raised attempt leaves `status_code` and
`response_text` at their previous values.  `requests.Response.ok` is true
exactly when `raise_for_status` does not raise, i.e. when the status is not
in `[400, 600)`. -/

inductive AttemptOutcome where
  | response : Nat → String → AttemptOutcome
  | netError : String → AttemptOutcome

structure PostState where
  status : Option Nat
  text : String
  lastExc : Option String
deriving DecidableEq, Repr

/-- `requests.Response.ok`. -/
def respOk (s : Nat) : Bool :=
  !(400 ≤ s && s < 600)

/-- `status_code and 200 <= status_code < 300` (inbound_processor.py:387). -/
def is2xxOpt : Option Nat → Bool
  | some s => 200 ≤ s && s < 300
  | none => false

/-- The `while attempt < max_attempts` loop: `rem` is the number of attempts
still allowed, `made` the number already made, returning the final state,
the total attempts made, and the number of `time.sleep(delay_seconds)`
calls (executed after a failed attempt when `attempt < max_attempts`). -/
def postAttemptsGo (oracle : Nat → AttemptOutcome) :
    Nat → Nat → Nat → PostState → PostState × Nat × Nat
  | 0, made, slept, st => (st, made, slept)
  | rem + 1, made, slept, st =>
      match oracle (made + 1) with
      | .response s b =>
          if respOk s then (⟨some s, b, st.lastExc⟩, made + 1, slept)
          else
            postAttemptsGo oracle rem (made + 1)
              (slept + (if rem = 0 then 0 else 1)) ⟨some s, b, some "HTTP"⟩
      | .netError m =>
          postAttemptsGo oracle rem (made + 1)
            (slept + (if rem = 0 then 0 else 1)) ⟨st.status, st.text, some m⟩

def postWithRetry (oracle : Nat → AttemptOutcome) (maxAttempts : Nat) :
    PostState × Nat × Nat :=
  postAttemptsGo oracle maxAttempts 0 0 ⟨none, "", none⟩

/-- Whether the loop's final state leaves `http_status_ok` untouched: the
unit is marked failed iff `last_exception` is set and the final recorded
status is not 2xx (inbound_processor.py:387-388). -/
def unitPostOk (st : PostState) : Bool :=
  !(st.lastExc.isSome && !is2xxOpt st.status)

/-! ## Per-file outcome, archive/dead-letter move and notification
(`InboundProcessor.process`, inbound_processor.py:281-459, and
`_move_sftp_file`, inbound_processor.py:163-204) -/

/-- Outcome of one processed unit (one converted artifact POSTed, or a
piece whose conversion raised). -/
inductive UnitOutcome where
  | posted : PostState → UnitOutcome
  | pieceError : String → UnitOutcome

def unitOk : UnitOutcome → Bool
  | .posted st => unitPostOk st
  | .pieceError _ => false

/-- `http_status_ok` starts `True` and is only ever set to `False`; the
file's recorded outcome is its final value (inbound_processor.py:286, 433). -/
def fileSuccess (us : List UnitOutcome) : Bool :=
  us.foldl (fun ok u => ok && unitOk u) true

/-- `dest_dir = "/Incoming/Archives" if success else "/Incoming/DeadLetter"`
(inbound_processor.py:164). -/
def moveDest (success : Bool) : String :=
  if success then "/Incoming/Archives" else "/Incoming/DeadLetter"

/-- The email row appended for a unit when splitting is enabled
(inbound_processor.py:407-412, 422): status cell and response cell. -/
def emailRow : UnitOutcome → String × String
  | .posted st =>
      (if is2xxOpt st.status then "Success" else "Failed",
       if is2xxOpt st.status then "Success" else pySlice st.text 0 2000)
  | .pieceError m => ("Failed", pySlice m 0 2000)

def emailRows (us : List UnitOutcome) : List (String × String) :=
  us.map emailRow

/-- `if split_config.get('enabled') and email_rows:` — the split-mode email
goes out whenever at least one row was collected (inbound_processor.py:450). -/
def splitEmailSent (us : List UnitOutcome) : Bool :=
  !(emailRows us).isEmpty

/-- The SFTP effects available to `_move_sftp_file`, each with an oracle
saying whether it succeeds. -/
structure MoveWorld where
  localPresent : Bool
  downloadOk : Bool
  uploadOk : Bool
  removeOk : Bool
  renameOk : Bool
deriving DecidableEq, Repr

inductive MoveAction where
  | download : MoveAction
  | upload : String → MoveAction
  | remove : MoveAction
  | rename : String → MoveAction
  | logMoveError : MoveAction
deriving DecidableEq, Repr

/-- `_move_sftp_file` (inbound_processor.py:163-204) as an action trace.
The function is total — every failure inside is caught: a missing local
tmp file triggers a download, a download or upload failure is caught by
the enclosing `except` and merely logged, a failed `remove` of the source
falls back to a `rename` into the destination, and a failed rename is
logged.  Nothing is ever re-raised to the caller. -/
def move_sftp_file (w : MoveWorld) (success : Bool) : List MoveAction :=
  let dest := moveDest success
  if !w.localPresent && !w.downloadOk then [.download, .logMoveError]
  else
    let pre : List MoveAction := if w.localPresent then [] else [.download]
    if !w.uploadOk then pre ++ [.upload dest, .logMoveError]
    else if w.removeOk then pre ++ [.upload dest, .remove]
    else if w.renameOk then pre ++ [.upload dest, .remove, .rename dest]
    else pre ++ [.upload dest, .remove, .rename dest, .logMoveError]

/-- Per-file processing at the outcome level: the recorded outcome is
computed from the units (inbound_processor.py:433), then the move is
attempted in the `finally` block with its result discarded
(inbound_processor.py:439-445). -/
def processFile (us : List UnitOutcome) (w : MoveWorld) :
    Bool × List MoveAction :=
  (fileSuccess us, move_sftp_file w (fileSuccess us))

/-! ## Outbound artifact gate (`OutboundProcessor`, outbound_processor.py:102-275)

A generated artifact is its text content as a list of lines, or `none`
when the converter returned a falsy path, raised, or the file does not
exist.  `deliverOk` says whether a delivery attempt (SFTP upload or its
local fallback) would succeed for it. -/

/-- `_file_has_data` (outbound_processor.py:102-112) on the file's lines: a
missing or zero-byte file has no lines, and otherwise some line must have
non-whitespace content. -/
def file_has_data (content : List String) : Bool :=
  content.any (fun l => pyStrip l ≠ "")

structure OutArtifact where
  converted : Option (List String)
  deliverOk : Bool

def artifactHasData (a : OutArtifact) : Bool :=
  match a.converted with
  | some c => file_has_data c
  | none => false

/-- The artifacts for which a delivery is attempted: those passing the
`not out_path or not _file_has_data(out_path)` gate (outbound_processor.py:214-216). -/
def deliveryAttempts (arts : List OutArtifact) : List (List String) :=
  arts.filterMap (fun a =>
    match a.converted with
    | some c => if file_has_data c then some c else none
    | none => none)

/-- `generated_files`: artifacts that passed the gate, were delivered, and
still have data at the final re-check (outbound_processor.py:244-245). -/
def generated_files (arts : List OutArtifact) : List (List String) :=
  arts.filterMap (fun a =>
    match a.converted with
    | some c => if file_has_data c && a.deliverOk then some c else none
    | none => none)

/-- `if generated_files:` — the summary email with all artifacts attached
is sent exactly when the list is non-empty (outbound_processor.py:253-275). -/
def summaryEmailSent (arts : List OutArtifact) : Bool :=
  !(generated_files arts).isEmpty

/-! ## OAuthClient (`get_token`, common/oauth_client.py:104-164)

The token cache file read is an oracle: missing file, unreadable file
(`IOError`), corrupt contents (`json.JSONDecodeError`), or a successfully
parsed cache dict with optional `access_token` and `expires_at` fields.
The token endpoint is an oracle too: a raised request / non-2xx response,
a non-JSON body, or a parsed response with optional `access_token` and
`expires_in`.  Time is an integer parameter `now`. -/

inductive CacheRead where
  | missing : CacheRead
  | unreadable : CacheRead
  | corrupt : CacheRead
  | valid : Option String → Option Int → CacheRead
deriving DecidableEq, Repr

/-- `_load_cache` (oauth_client.py:68-87): the parsed dict, with every
failure mode collapsed to the empty dict. -/
def loadCache : CacheRead → Option String × Option Int
  | .valid tok exp => (tok, exp)
  | _ => (none, none)

structure TokenResponse where
  access_token : Option String
  expires_in : Option Int
deriving DecidableEq, Repr

inductive TokenRequest where
  | failure : String → TokenRequest
  | badJson : TokenRequest
  | ok : TokenResponse → TokenRequest
deriving DecidableEq, Repr

/-- `get_token` (oauth_client.py:104-164).  Returns the token together with
the cache entry persisted by `_save_cache` on the refresh path (`none` when
the cached token was served).  Errors are the exceptions get_token raises
to its caller. -/
def get_token (read : CacheRead) (req : TokenRequest) (now : Int) :
    Except String (String × Option (String × Int)) :=
  let c := loadCache read
  if (c.1.isSome || c.2.isSome) && (c.2.getD 0 > now) then
    match c.1 with
    | some tok => .ok (tok, none)
    | none => .error "KeyError: access_token"
  else
    match req with
    | .failure m => .error m
    | .badJson => .error "token response is not JSON"
    | .ok r =>
        match r.access_token with
        | none => .error "No access_token in OAuth response"
        | some tok =>
            let expiresIn := r.expires_in.getD 3600
            .ok (tok, some (tok, now + expiresIn - 30))

/-! # Helper lemmas -/

theorem lookupKey_setKey_self (l : List (String × JVal)) (k : String) (v : JVal) :
    lookupKey (setKey l k v) k = some v := by
  induction l with
  | nil => simp [setKey, lookupKey]
  | cons hd tl ih =>
      obtain ⟨k', v'⟩ := hd
      by_cases h : k' = k
      · simp [setKey, lookupKey, h]
      · simp [setKey, lookupKey, h, ih]

theorem lookupKey_setKey_ne (l : List (String × JVal)) (k : String) (v : JVal)
    (k' : String) (h : k' ≠ k) :
    lookupKey (setKey l k v) k' = lookupKey l k' := by
  have hk : k ≠ k' := Ne.symm h
  induction l with
  | nil => simp [setKey, lookupKey, hk]
  | cons hd tl ih =>
      obtain ⟨k₀, v₀⟩ := hd
      by_cases h0 : k₀ = k
      · subst h0
        simp [setKey, lookupKey, hk]
      · simp only [setKey, lookupKey, h0, if_false]
        by_cases h1 : k₀ = k'
        · simp [h1]
        · simp [h1, ih]

theorem updatePair_frame (fs : List (String × JVal)) (a b st en : String)
    (k : String) (ha : k ≠ a) (hb : k ≠ b) :
    lookupKey (updatePair fs a b st en) k = lookupKey fs k := by
  unfold updatePair
  split
  · rw [lookupKey_setKey_ne _ _ _ _ hb, lookupKey_setKey_ne _ _ _ _ ha]
  · rfl

theorem updatePair_hasKey_frame (fs : List (String × JVal)) (a b st en : String)
    (k : String) (ha : k ≠ a) (hb : k ≠ b) :
    hasKey (updatePair fs a b st en) k = hasKey fs k := by
  unfold hasKey
  rw [updatePair_frame fs a b st en k ha hb]

theorem updatePair_hit (fs : List (String × JVal)) (a b st en : String)
    (hab : a ≠ b) (h : hasKey fs a = true ∧ hasKey fs b = true) :
    lookupKey (updatePair fs a b st en) a = some (JVal.str st)
      ∧ lookupKey (updatePair fs a b st en) b = some (JVal.str en) := by
  unfold updatePair
  rw [if_pos (by simp [h.1, h.2])]
  refine ⟨?_, ?_⟩
  · rw [lookupKey_setKey_ne _ _ _ _ hab, lookupKey_setKey_self]
  · rw [lookupKey_setKey_self]

theorem updatePair_miss (fs : List (String × JVal)) (a b st en : String)
    (h : ¬(hasKey fs a = true ∧ hasKey fs b = true)) :
    updatePair fs a b st en = fs := by
  unfold updatePair
  rw [if_neg]
  intro hc
  exact h (by constructor <;> [exact (Bool.and_eq_true _ _ ▸ hc).1;
    exact (Bool.and_eq_true _ _ ▸ hc).2])

theorem getFilters_update (today : Date) (data : List (String × JVal)) :
    getFilters (update_payload_file today data)
      = updateFilters (getFilters data)
          (get_yesterday_range today).1 (get_yesterday_range today).2 := by
  unfold update_payload_file getFilters
  rw [lookupKey_setKey_self]

/-! # Claims -/

/-- C7: for every line and 1-based inclusive bounds `[start, end]` with
`1 ≤ start ≤ end`, `GNCOrders_Converter._slice` returns the trimmed
substring covering positions `start..end` (clipped at the line's actual
end when the line is shorter than `end`), and a line shorter than `start`
yields the empty string; the definition is total, so no input can raise. -/
theorem slice_safe_extraction (line : String) (s e : Nat)
    (h1 : 1 ≤ s) (h2 : s ≤ e) :
    GNCOrders_Converter_slice line s e
        = pyStrip (String.mk ((line.data.drop (s - 1)).take (e - s + 1)))
    ∧ (line.data.length < e →
        GNCOrders_Converter_slice line s e = pyStrip (pySliceFrom line (s - 1)))
    ∧ (line.data.length < s → GNCOrders_Converter_slice line s e = "") := by
  refine ⟨?_, ?_, ?_⟩
  · unfold GNCOrders_Converter_slice pySlice pySliceFrom
    by_cases h : line.data.length ≥ e
    · rw [if_pos h]
      have he : e - (s - 1) = e - s + 1 := by omega
      rw [he]
    · rw [if_neg h]
      have ht : (line.data.drop (s - 1)).take (e - s + 1) = line.data.drop (s - 1) := by
        apply List.take_of_length_le
        rw [List.length_drop]
        omega
      rw [ht]
  · intro h
    unfold GNCOrders_Converter_slice
    rw [if_neg (by omega)]
  · intro h
    unfold GNCOrders_Converter_slice pySlice pySliceFrom
    have hd : line.data.drop (s - 1) = [] := by
      rw [List.drop_eq_nil_iff]
      omega
    by_cases hle : line.data.length ≥ e
    · omega
    · rw [if_neg hle, hd]
      rfl

/-- C7 witness: concrete applications of `slice_safe_extraction`. -/
theorem slice_safe_extraction_witness :
    GNCOrders_Converter_slice "abcdef" 2 4
        = pyStrip (String.mk ((("abcdef" : String).data.drop 1).take 3))
    ∧ GNCOrders_Converter_slice "ab" 5 9 = "" :=
  ⟨(slice_safe_extraction "abcdef" 2 4 (by decide) (by decide)).1,
   (slice_safe_extraction "ab" 5 9 (by decide) (by decide)).2.2 (by decide)⟩

/-- C3 counterexample: on run date 2024-06-10 the rewrite window starts at
`utcnow - 7 days` = 2024-06-03T00:00:00.000Z, not the claimed
2024-06-02T00:00:00.000Z. -/
theorem date_window_cex :
    get_yesterday_range ⟨2024, 6, 10⟩
        = ("2024-06-03T00:00:00.000Z", "2024-06-09T23:59:59.999Z")
    ∧ get_yesterday_range ⟨2024, 6, 10⟩
        ≠ ("2024-06-02T00:00:00.000Z", "2024-06-09T23:59:59.999Z") := by
  constructor
  · rfl
  · decide

/-- C3 (amended): the rewrite updates each recognized pair iff both of its
bounds are present, every rewritten pair receives the same window, and on
run date 2024-06-10 that window is
2024-06-03T00:00:00.000Z .. 2024-06-09T23:59:59.999Z (start = run date
minus 7 days, i.e. six days before yesterday, not the claimed 2024-06-02). -/
theorem date_window_rewrite (today : Date) (data : List (String × JVal)) :
    ((hasKey (getFilters data) "created_from" = true
        ∧ hasKey (getFilters data) "created_to" = true) →
      lookupKey (getFilters (update_payload_file today data)) "created_from"
          = some (JVal.str (get_yesterday_range today).1)
        ∧ lookupKey (getFilters (update_payload_file today data)) "created_to"
          = some (JVal.str (get_yesterday_range today).2))
    ∧ (¬(hasKey (getFilters data) "created_from" = true
        ∧ hasKey (getFilters data) "created_to" = true) →
      lookupKey (getFilters (update_payload_file today data)) "created_from"
          = lookupKey (getFilters data) "created_from"
        ∧ lookupKey (getFilters (update_payload_file today data)) "created_to"
          = lookupKey (getFilters data) "created_to")
    ∧ ((hasKey (getFilters data) "fulfilled_from" = true
        ∧ hasKey (getFilters data) "fulfilled_to" = true) →
      lookupKey (getFilters (update_payload_file today data)) "fulfilled_from"
          = some (JVal.str (get_yesterday_range today).1)
        ∧ lookupKey (getFilters (update_payload_file today data)) "fulfilled_to"
          = some (JVal.str (get_yesterday_range today).2))
    ∧ (¬(hasKey (getFilters data) "fulfilled_from" = true
        ∧ hasKey (getFilters data) "fulfilled_to" = true) →
      lookupKey (getFilters (update_payload_file today data)) "fulfilled_from"
          = lookupKey (getFilters data) "fulfilled_from"
        ∧ lookupKey (getFilters (update_payload_file today data)) "fulfilled_to"
          = lookupKey (getFilters data) "fulfilled_to")
    ∧ ((hasKey (getFilters data) "completed_from" = true
        ∧ hasKey (getFilters data) "completed_to" = true) →
      lookupKey (getFilters (update_payload_file today data)) "completed_from"
          = some (JVal.str (get_yesterday_range today).1)
        ∧ lookupKey (getFilters (update_payload_file today data)) "completed_to"
          = some (JVal.str (get_yesterday_range today).2))
    ∧ (¬(hasKey (getFilters data) "completed_from" = true
        ∧ hasKey (getFilters data) "completed_to" = true) →
      lookupKey (getFilters (update_payload_file today data)) "completed_from"
          = lookupKey (getFilters data) "completed_from"
        ∧ lookupKey (getFilters (update_payload_file today data)) "completed_to"
          = lookupKey (getFilters data) "completed_to")
    ∧ get_yesterday_range ⟨2024, 6, 10⟩
        = ("2024-06-03T00:00:00.000Z", "2024-06-09T23:59:59.999Z") := by
  rw [getFilters_update]
  set fs := getFilters data with hfs
  set st := (get_yesterday_range today).1 with hst
  set en := (get_yesterday_range today).2 with hen
  have hunf : updateFilters fs st en
      = updatePair (updatePair (updatePair fs "created_from" "created_to" st en)
          "fulfilled_from" "fulfilled_to" st en) "completed_from" "completed_to" st en := rfl
  rw [hunf]
  set fs1 := updatePair fs "created_from" "created_to" st en with hfs1
  set fs2 := updatePair fs1 "fulfilled_from" "fulfilled_to" st en with hfs2
  refine ⟨?_, ?_, ?_, ?_, ?_, ?_, rfl⟩
  · intro h
    have h1 := updatePair_hit fs "created_from" "created_to" st en (by decide) h
    constructor
    · rw [updatePair_frame _ _ _ _ _ _ (by decide) (by decide),
        updatePair_frame _ _ _ _ _ _ (by decide) (by decide)]
      exact h1.1
    · rw [updatePair_frame _ _ _ _ _ _ (by decide) (by decide),
        updatePair_frame _ _ _ _ _ _ (by decide) (by decide)]
      exact h1.2
  · intro h
    have h1 : fs1 = fs := updatePair_miss fs _ _ _ _ h
    constructor
    · rw [updatePair_frame _ _ _ _ _ _ (by decide) (by decide),
        updatePair_frame _ _ _ _ _ _ (by decide) (by decide), h1]
    · rw [updatePair_frame _ _ _ _ _ _ (by decide) (by decide),
        updatePair_frame _ _ _ _ _ _ (by decide) (by decide), h1]
  · intro h
    have hk1 : hasKey fs1 "fulfilled_from" = hasKey fs "fulfilled_from" :=
      updatePair_hasKey_frame _ _ _ _ _ _ (by decide) (by decide)
    have hk2 : hasKey fs1 "fulfilled_to" = hasKey fs "fulfilled_to" :=
      updatePair_hasKey_frame _ _ _ _ _ _ (by decide) (by decide)
    have h1 := updatePair_hit fs1 "fulfilled_from" "fulfilled_to" st en (by decide)
      ⟨hk1.trans h.1, hk2.trans h.2⟩
    constructor
    · rw [updatePair_frame _ _ _ _ _ _ (by decide) (by decide)]
      exact h1.1
    · rw [updatePair_frame _ _ _ _ _ _ (by decide) (by decide)]
      exact h1.2
  · intro h
    have hk1 : hasKey fs1 "fulfilled_from" = hasKey fs "fulfilled_from" :=
      updatePair_hasKey_frame _ _ _ _ _ _ (by decide) (by decide)
    have hk2 : hasKey fs1 "fulfilled_to" = hasKey fs "fulfilled_to" :=
      updatePair_hasKey_frame _ _ _ _ _ _ (by decide) (by decide)
    have h2 : fs2 = fs1 := by
      apply updatePair_miss
      rw [hk1, hk2]
      exact h
    constructor
    · rw [updatePair_frame _ _ _ _ _ _ (by decide) (by decide), h2,
        updatePair_frame _ _ _ _ _ _ (by decide) (by decide)]
    · rw [updatePair_frame _ _ _ _ _ _ (by decide) (by decide), h2,
        updatePair_frame _ _ _ _ _ _ (by decide) (by decide)]
  · intro h
    have hk1 : hasKey fs2 "completed_from" = hasKey fs "completed_from" := by
      rw [hfs2, updatePair_hasKey_frame _ _ _ _ _ _ (by decide) (by decide),
        hfs1, updatePair_hasKey_frame _ _ _ _ _ _ (by decide) (by decide)]
    have hk2 : hasKey fs2 "completed_to" = hasKey fs "completed_to" := by
      rw [hfs2, updatePair_hasKey_frame _ _ _ _ _ _ (by decide) (by decide),
        hfs1, updatePair_hasKey_frame _ _ _ _ _ _ (by decide) (by decide)]
    exact updatePair_hit fs2 "completed_from" "completed_to" st en (by decide)
      ⟨hk1.trans h.1, hk2.trans h.2⟩
  · intro h
    have hk1 : hasKey fs2 "completed_from" = hasKey fs "completed_from" := by
      rw [hfs2, updatePair_hasKey_frame _ _ _ _ _ _ (by decide) (by decide),
        hfs1, updatePair_hasKey_frame _ _ _ _ _ _ (by decide) (by decide)]
    have hk2 : hasKey fs2 "completed_to" = hasKey fs "completed_to" := by
      rw [hfs2, updatePair_hasKey_frame _ _ _ _ _ _ (by decide) (by decide),
        hfs1, updatePair_hasKey_frame _ _ _ _ _ _ (by decide) (by decide)]
    have h3 : updatePair fs2 "completed_from" "completed_to" st en = fs2 := by
      apply updatePair_miss
      rw [hk1, hk2]
      exact h
    rw [h3]
    constructor
    · rw [hfs2, updatePair_frame _ _ _ _ _ _ (by decide) (by decide),
        hfs1, updatePair_frame _ _ _ _ _ _ (by decide) (by decide)]
    · rw [hfs2, updatePair_frame _ _ _ _ _ _ (by decide) (by decide),
        hfs1, updatePair_frame _ _ _ _ _ _ (by decide) (by decide)]

/-- C3 witness: a payload with only the fulfilled pair gets it rewritten to
the 2024-06-10 window while `created_from` stays untouched (absent). -/
theorem date_window_rewrite_witness :
    lookupKey (getFilters (update_payload_file ⟨2024, 6, 10⟩
        [("filters", JVal.obj [("fulfilled_from", JVal.str "a"),
          ("fulfilled_to", JVal.str "b"), ("owner", JVal.str "GNC")])]))
      "fulfilled_from" = some (JVal.str "2024-06-03T00:00:00.000Z")
    ∧ lookupKey (getFilters (update_payload_file ⟨2024, 6, 10⟩
        [("filters", JVal.obj [("fulfilled_from", JVal.str "a"),
          ("fulfilled_to", JVal.str "b"), ("owner", JVal.str "GNC")])]))
      "created_from" = none := by
  constructor
  · exact ((date_window_rewrite ⟨2024, 6, 10⟩
      [("filters", JVal.obj [("fulfilled_from", JVal.str "a"),
        ("fulfilled_to", JVal.str "b"), ("owner", JVal.str "GNC")])]).2.2.1
      ⟨rfl, rfl⟩).1
  · exact ((date_window_rewrite ⟨2024, 6, 10⟩
      [("filters", JVal.obj [("fulfilled_from", JVal.str "a"),
        ("fulfilled_to", JVal.str "b"), ("owner", JVal.str "GNC")])]).2.1
      (by intro hc; exact absurd hc.1 (by decide))).1

/-- C10: `update_payload_file` always writes a `filters` key back; a
document without one gains an empty filters object; top-level keys other
than `filters` are untouched, and filters entries outside the three
recognized pairs are untouched. -/
theorem payload_filters_frame (today : Date) (data : List (String × JVal)) :
    hasKey (update_payload_file today data) "filters" = true
    ∧ (lookupKey data "filters" = none →
        lookupKey (update_payload_file today data) "filters"
          = some (JVal.obj []))
    ∧ (∀ k, k ≠ "filters" →
        lookupKey (update_payload_file today data) k = lookupKey data k)
    ∧ (∀ k, k ∉ (["created_from", "created_to", "fulfilled_from",
        "fulfilled_to", "completed_from", "completed_to"] : List String) →
        lookupKey (getFilters (update_payload_file today data)) k
          = lookupKey (getFilters data) k) := by
  refine ⟨?_, ?_, ?_, ?_⟩
  · unfold update_payload_file hasKey
    rw [lookupKey_setKey_self]
    rfl
  · intro h
    have hg : getFilters data = [] := by
      unfold getFilters
      rw [h]
    unfold update_payload_file
    rw [lookupKey_setKey_self, hg]
    rfl
  · intro k hk
    unfold update_payload_file
    exact lookupKey_setKey_ne _ _ _ _ hk
  · intro k hk
    simp only [List.mem_cons, List.not_mem_nil, or_false, not_or] at hk
    obtain ⟨h1, h2, h3, h4, h5, h6⟩ := hk
    rw [getFilters_update]
    show lookupKey (updatePair (updatePair (updatePair (getFilters data)
      "created_from" "created_to" _ _) "fulfilled_from" "fulfilled_to" _ _)
      "completed_from" "completed_to" _ _) k = _
    rw [updatePair_frame _ _ _ _ _ _ h5 h6,
      updatePair_frame _ _ _ _ _ _ h3 h4,
      updatePair_frame _ _ _ _ _ _ h1 h2]

/-- C10 witness: concrete applications of `payload_filters_frame`. -/
theorem payload_filters_frame_witness :
    lookupKey (update_payload_file ⟨2024, 6, 10⟩ [("x", JVal.num 1)]) "filters"
        = some (JVal.obj [])
    ∧ lookupKey (update_payload_file ⟨2024, 6, 10⟩ [("x", JVal.num 1)]) "x"
        = some (JVal.num 1) := by
  constructor
  · exact (payload_filters_frame ⟨2024, 6, 10⟩ [("x", JVal.num 1)]).2.1 rfl
  · exact ((payload_filters_frame ⟨2024, 6, 10⟩ [("x", JVal.num 1)]).2.2.1
      "x" (by decide)).trans rfl

/-! ## Spec-side reading of the split policy (for C4)

These definitions follow the spec's words (§4.2): discard the first line
when its trimmed content starts with `#`, discard blank lines, stop
consuming at the end-of-transmission marker; the retained lines are what
remains. -/

def dropLeadingComment : List String → List String
  | [] => []
  | l :: rest => if startsWithHash (pyStrip l) then rest else l :: rest

def cleanLines : List String → List String
  | [] => []
  | l :: rest =>
      if pyStrip l = "" then cleanLines rest
      else if pyStrip l = "#EOT" then []
      else l :: cleanLines rest

/-- The retained lines of an input file under the spec's policy. -/
def specRetained (lines : List String) : List String :=
  cleanLines (dropLeadingComment lines)

theorem cleanLines_clean (xs : List String) :
    ∀ l ∈ cleanLines xs, pyStrip l ≠ "" ∧ pyStrip l ≠ "#EOT" := by
  induction xs with
  | nil => intro l hl; simp [cleanLines] at hl
  | cons x rest ih =>
      intro l hl
      by_cases h1 : pyStrip x = ""
      · rw [cleanLines, if_pos h1] at hl
        exact ih l hl
      · by_cases h2 : pyStrip x = "#EOT"
        · rw [cleanLines, if_neg h1, if_pos h2] at hl
          simp at hl
        · rw [cleanLines, if_neg h1, if_neg h2] at hl
          rcases List.mem_cons.mp hl with h | h
          · subst h; exact ⟨h1, h2⟩
          · exact ih l h

theorem splitGo_cleanLines (s e : Nat) (lines : List String)
    (st : Option (String × List String)) :
    splitGo s e lines st = splitGo s e (cleanLines lines) st := by
  induction lines generalizing st with
  | nil => rfl
  | cons l rest ih =>
      by_cases h1 : pyStrip l = ""
      · rw [cleanLines, if_pos h1]
        rw [splitGo.eq_def]
        simp only [if_pos h1]
        exact ih st
      · by_cases h2 : pyStrip l = "#EOT"
        · rw [cleanLines, if_neg h1, if_pos h2]
          rw [splitGo.eq_def]
          simp only [if_neg h1, if_pos h2]
          match st with
          | none => rfl
          | some (k, buf) => rfl
        · rw [cleanLines, if_neg h1, if_neg h2]
          rw [splitGo.eq_def]
          conv_rhs => rw [splitGo.eq_def]
          simp only [if_neg h1, if_neg h2]
          match st with
          | none => exact ih _
          | some (k, buf) =>
              by_cases h3 : lineKey s e l = k
              · simp only [h3, if_pos rfl]
                exact ih _
              · simp only [if_neg h3]
                rw [ih _]

/-- Consuming a clean run of lines that all carry the current key extends
the buffer in reverse order. -/
theorem splitGo_consume (s e : Nat) (ls : List String) (tail : List String)
    (k : String) (buf : List String)
    (h : ∀ l ∈ ls, pyStrip l ≠ "" ∧ pyStrip l ≠ "#EOT" ∧ lineKey s e l = k) :
    splitGo s e (ls ++ tail) (some (k, buf))
      = splitGo s e tail (some (k, ls.reverse ++ buf)) := by
  induction ls generalizing buf with
  | nil => simp
  | cons l ls' ih =>
      obtain ⟨h1, h2, h3⟩ := h l (List.mem_cons_self _ _)
      rw [List.cons_append, splitGo.eq_def]
      simp only [if_neg h1, if_neg h2, h3, if_pos rfl]
      rw [ih _ (fun l hl => h l (List.mem_cons_of_mem _ hl))]
      simp

/-- Starting from the empty state, a clean constant-key run opens the first
group. -/
theorem splitGo_open (s e : Nat) (l : String) (ls' : List String)
    (tail : List String) (k : String)
    (h : ∀ x ∈ l :: ls', pyStrip x ≠ "" ∧ pyStrip x ≠ "#EOT" ∧ lineKey s e x = k) :
    splitGo s e ((l :: ls') ++ tail) none
      = splitGo s e tail (some (k, (l :: ls').reverse)) := by
  obtain ⟨h1, h2, h3⟩ := h l (List.mem_cons_self _ _)
  rw [List.cons_append, splitGo.eq_def]
  simp only [if_neg h1, if_neg h2]
  rw [h3]
  rw [splitGo_consume s e ls' tail k [l]
    (fun x hx => h x (List.mem_cons_of_mem _ hx))]
  simp

/-- From a non-empty current group, a clean constant-key run with a new key
flushes the current group and opens the next. -/
theorem splitGo_switch (s e : Nat) (l : String) (ls' : List String)
    (tail : List String) (k k' : String) (buf : List String)
    (hne : k' ≠ k)
    (h : ∀ x ∈ l :: ls', pyStrip x ≠ "" ∧ pyStrip x ≠ "#EOT" ∧ lineKey s e x = k') :
    splitGo s e ((l :: ls') ++ tail) (some (k, buf))
      = (k, buf.reverse) :: splitGo s e tail (some (k', (l :: ls').reverse)) := by
  obtain ⟨h1, h2, h3⟩ := h l (List.mem_cons_self _ _)
  rw [List.cons_append, splitGo.eq_def]
  simp only [if_neg h1, if_neg h2, h3, if_neg hne]
  rw [splitGo_consume s e ls' tail k' [l]
    (fun x hx => h x (List.mem_cons_of_mem _ hx))]
  simp

/-- Main grouping lemma: from a non-empty current group, the concatenation
of clean well-formed groups with pairwise-distinct adjacent keys is split
exactly into those groups. -/
theorem splitGo_groups (s e : Nat) (groups : List (String × List String)) :
    ∀ (k : String) (buf : List String),
    (∀ g ∈ groups, g.2 ≠ [] ∧
        ∀ l ∈ g.2, pyStrip l ≠ "" ∧ pyStrip l ≠ "#EOT" ∧ lineKey s e l = g.1) →
    (k :: groups.map Prod.fst).Chain' (· ≠ ·) →
    splitGo s e ((groups.map Prod.snd).flatten) (some (k, buf))
      = (k, buf.reverse) :: groups := by
  induction groups with
  | nil => intro k buf _ _; rfl
  | cons g gs ih =>
      intro k buf hwf hchain
      obtain ⟨k2, ls2⟩ := g
      obtain ⟨hne, hlines⟩ := hwf _ (List.mem_cons_self _ _)
      match ls2, hne with
      | l :: ls', _ =>
          simp only [List.map_cons, List.flatten_cons]
          have hk2 : k2 ≠ k := by
            have := List.chain'_cons.mp hchain
            exact Ne.symm this.1
          rw [splitGo_switch s e l ls' _ k k2 buf hk2 hlines]
          rw [ih k2 (l :: ls').reverse
            (fun g hg => hwf g (List.mem_cons_of_mem _ hg))
            (by
              have := List.chain'_cons.mp hchain
              simpa using this.2)]
          simp

/-- C4: an input file whose retained lines (first-line comment discarded,
blanks discarded, consumption stopped at the `#EOT` marker) form `N`
consecutive constant-key groups with distinct adjacent keys splits into
exactly those `N` `(key, lines)` files, in input order, each holding its
group's retained lines in original order; the final group is flushed even
without a terminator. -/
theorem split_by_field_groups (s e : Nat) (lines : List String)
    (groups : List (String × List String))
    (hjoin : specRetained lines = (groups.map Prod.snd).flatten)
    (hwf : ∀ g ∈ groups, g.2 ≠ [] ∧ ∀ l ∈ g.2, lineKey s e l = g.1)
    (hchain : (groups.map Prod.fst).Chain' (· ≠ ·)) :
    split_by_field s e lines = groups := by
  have hclean : ∀ g ∈ groups, ∀ l ∈ g.2,
      pyStrip l ≠ "" ∧ pyStrip l ≠ "#EOT" ∧ lineKey s e l = g.1 := by
    intro g hg l hl
    have hmem : l ∈ (groups.map Prod.snd).flatten := by
      rw [List.mem_flatten]
      exact ⟨g.2, List.mem_map_of_mem Prod.snd hg, hl⟩
    rw [← hjoin] at hmem
    have := cleanLines_clean (dropLeadingComment lines) l hmem
    exact ⟨this.1, this.2, (hwf g hg).2 l hl⟩
  have hmain : splitGo s e ((groups.map Prod.snd).flatten) none = groups := by
    match groups, hwf, hclean, hchain with
    | [], _, _, _ => rfl
    | (k1, ls1) :: gs, hwf, hclean, hchain =>
        obtain ⟨hne, _⟩ := hwf _ (List.mem_cons_self _ _)
        match ls1, hne with
        | l :: ls', _ =>
            simp only [List.map_cons, List.flatten_cons]
            rw [splitGo_open s e l ls' _ k1
              (hclean _ (List.mem_cons_self _ _))]
            rw [splitGo_groups s e gs k1 (l :: ls').reverse
              (fun g hg => And.intro (hwf g (List.mem_cons_of_mem _ hg)).1
                (hclean g (List.mem_cons_of_mem _ hg)))
              (by simpa using hchain)]
            simp
  match lines, hjoin with
  | [], hjoin =>
      match groups, hjoin, hwf with
      | [], _, _ => rfl
      | (k1, ls1) :: gs, hjoin, hwf =>
          obtain ⟨hne, _⟩ := hwf _ (List.mem_cons_self _ _)
          exfalso
          apply hne

          have : ls1 ++ (gs.map Prod.snd).flatten = [] := by
            simpa [specRetained, dropLeadingComment, cleanLines] using hjoin.symm
          exact List.append_eq_nil.mp this |>.1
  | first :: rest, hjoin =>
      rw [split_by_field]
      by_cases hc : startsWithHash (pyStrip first)
      · rw [if_pos hc]
        have hr : specRetained (first :: rest) = cleanLines rest := by
          simp [specRetained, dropLeadingComment, hc]
        rw [splitGo_cleanLines, ← hr, hjoin, hmain]
      · rw [if_neg hc]
        have hr : specRetained (first :: rest) = cleanLines (first :: rest) := by
          simp [specRetained, dropLeadingComment, hc]
        rw [splitGo_cleanLines, ← hr, hjoin, hmain]

/-- C4 witness: a concrete file with a comment header, an interior blank,
an `#EOT` marker with trailing junk, and two groups. -/
theorem split_by_field_groups_witness :
    split_by_field 1 3
        ["# header", "AAAx1", "", "AAAx2", "BBBy1", " #EOT ", "junk"]
      = [("AAA", ["AAAx1", "AAAx2"]), ("BBB", ["BBBy1"])] :=
  split_by_field_groups 1 3
    ["# header", "AAAx1", "", "AAAx2", "BBBy1", " #EOT ", "junk"]
    [("AAA", ["AAAx1", "AAAx2"]), ("BBB", ["BBBy1"])]
    (by decide) (by decide)
    (List.chain'_cons.mpr ⟨by decide, List.chain'_singleton _⟩)

/-! ## Spec-side reading of packaging selection (for C5) -/

/-- Follows the spec's words: the first-encountered candidate with the
smallest positive integer base quantity (paired with its rendered
packaging code), or `none` when no candidate has a usable quantity. -/
def specBestGnc : List Packaging → Option (Int × String)
  | [] => none
  | p :: rest =>
      match gncUsable p.base_packaging_quantity, specBestGnc rest with
      | some n, none => some (n, p.packaging.getD "EA")
      | some n, some (m, s) =>
          if n ≤ m then some (n, p.packaging.getD "EA") else some (m, s)
      | .none, r => r

/-- Follows the spec's words for the FC key order: the first-encountered
candidate whose key (`none` = `+∞`) is minimal. -/
def specMinFc : List Packaging → Option (Option Int × Packaging)
  | [] => none
  | p :: rest =>
      match specMinFc rest with
      | none => some (fcBaseQty p, p)
      | some (m, q) =>
          if infLt m (fcBaseQty p) then some (m, q) else some (fcBaseQty p, p)

theorem infLt_trans {a b c : Option Int} (h1 : infLt a b = true)
    (h2 : infLt b c = true) : infLt a c = true := by
  match a, b, c with
  | some x, some y, some z => simp [infLt] at h1 h2 ⊢; omega
  | some x, some y, none => simp [infLt]
  | some x, none, c => simp [infLt] at h2
  | none, b, c => simp [infLt] at h1

theorem infLt_resolve {a b c : Option Int} (h1 : infLt a c = true)
    (h2 : infLt a b = false) : infLt b c = true := by
  match a, b, c with
  | some x, some y, some z => simp [infLt] at h1 h2 ⊢; omega
  | some x, some y, none => simp [infLt]
  | some x, none, c => simp [infLt] at h2
  | none, b, c => simp [infLt] at h1

theorem gncScan_some (ps : List Packaging) :
    ∀ (n : Int) (sel : String),
    gncScan ps (some n, sel)
      = match specBestGnc ps with
        | none => (some n, sel)
        | some (m, s) => if m < n then (some m, s) else (some n, sel) := by
  induction ps with
  | nil => intro n sel; rfl
  | cons p rest ih =>
      intro n sel
      rw [gncScan]
      match hq : gncUsable p.base_packaging_quantity with
      | .none =>
          rw [show gncStep (some n, sel) p = (some n, sel) by
            simp [gncStep, hq]]
          rw [ih n sel]
          simp only [specBestGnc, hq]
      | some q =>
          by_cases hlt : q < n
          · rw [show gncStep (some n, sel) p = (some q, p.packaging.getD "EA") by
              simp [gncStep, hq, hlt]]
            rw [ih q _]
            simp only [specBestGnc, hq]
            match hs : specBestGnc rest with
            | none => simp [hlt]
            | some (m, s) =>
                by_cases hqm : q ≤ m
                · have h1 : ¬ m < q := by omega
                  simp [hqm, h1, hlt]
                · have h1 : m < q := by omega
                  have h2 : m < n := by omega
                  simp [hqm, h1, h2]
          · rw [show gncStep (some n, sel) p = (some n, sel) by
              simp [gncStep, hq, hlt]]
            rw [ih n sel]
            simp only [specBestGnc, hq]
            match hs : specBestGnc rest with
            | none => simp [hlt]
            | some (m, s) =>
                by_cases hqm : q ≤ m
                · have h1 : ¬ m < n := by omega
                  simp [hqm, h1, hlt]
                · simp [hqm]

theorem gncScan_none (ps : List Packaging) :
    gncScan ps (none, "EA")
      = match specBestGnc ps with
        | none => (none, "EA")
        | some (m, s) => (some m, s) := by
  induction ps with
  | nil => rfl
  | cons p rest ih =>
      rw [gncScan]
      match hq : gncUsable p.base_packaging_quantity with
      | .none =>
          rw [show gncStep (none, "EA") p = (none, "EA") by simp [gncStep, hq]]
          rw [ih]
          simp only [specBestGnc, hq]
      | some q =>
          rw [show gncStep (none, "EA") p = (some q, p.packaging.getD "EA") by
            simp [gncStep, hq]]
          rw [gncScan_some rest q _]
          simp only [specBestGnc, hq]
          match hs : specBestGnc rest with
          | none => rfl
          | some (m, s) =>
              by_cases hqm : q ≤ m
              · have h1 : ¬ m < q := by omega
                simp [hqm, h1]
              · have h1 : m < q := by omega
                simp [hqm, h1]

theorem pyMinBy_spec (l : List Packaging) :
    ∀ best : Packaging,
    pyMinBy fcBaseQty best l
      = match specMinFc l with
        | none => best
        | some (m, q) => if infLt m (fcBaseQty best) then q else best := by
  induction l with
  | nil => intro best; rfl
  | cons p rest ih =>
      intro best
      rw [pyMinBy]
      by_cases hb : infLt (fcBaseQty p) (fcBaseQty best) = true
      · rw [if_pos hb, ih p]
        simp only [specMinFc]
        match hs : specMinFc rest with
        | none => simp [hb]
        | some (m, q) =>
            by_cases hm : infLt m (fcBaseQty p) = true
            · have hmb : infLt m (fcBaseQty best) = true := infLt_trans hm hb
              simp [hm, hmb]
            · simp [hm, hb]
      · have hb' : infLt (fcBaseQty p) (fcBaseQty best) = false := by
          cases h : infLt (fcBaseQty p) (fcBaseQty best)
          · rfl
          · exact absurd h hb
        rw [if_neg hb, ih best]
        simp only [specMinFc]
        match hs : specMinFc rest with
        | none => simp [hb']
        | some (m, q) =>
            by_cases hm : infLt m (fcBaseQty p) = true
            · simp [hm]
            · have hm' : infLt m (fcBaseQty p) = false := by
                cases h : infLt m (fcBaseQty p)
                · rfl
                · exact absurd h hm
              have hmb : infLt m (fcBaseQty best) = false := by
                cases h : infLt m (fcBaseQty best)
                · rfl
                · have hres := infLt_resolve h hm'
                  rw [hres] at hb'
                  exact Bool.noConfusion hb'
              simp [hm', hb', hmb]

theorem specMinFc_isSome (p : Packaging) (l : List Packaging) :
    (specMinFc (p :: l)).isSome = true := by
  rw [specMinFc]
  cases h : specMinFc l with
  | none => rfl
  | some mq =>
      obtain ⟨m, q⟩ := mq
      by_cases hlt : infLt m (fcBaseQty p) = true
      · simp [hlt]
      · simp [hlt]

/-- C5 (amended): `select_packaging` (GNC) returns the first-encountered
candidate with the smallest positive integer base quantity (its packaging
code stripped, `"EA"` when blank or absent), falling back to the literal
`"EA"` when no candidate has a usable quantity; the FC choice takes a sole
candidate directly and otherwise minimizes the parsed integer quantity with
missing/unparseable values as `+∞` and no positivity requirement (first on
ties), so its all-unusable fallback is the first candidate; candidates
`[{q:5},{q:2},{q:10}]` resolve to the `q:2` entry in both converters. -/
theorem packaging_selection :
    (∀ ps : List Packaging,
      select_packaging ps
        = match specBestGnc ps with
          | none => "EA"
          | some (_, s) => orEA (pyStrip s))
    ∧ (∀ (p : Packaging) (rest : List Packaging),
      fcSelect (p :: rest)
        = match specMinFc (p :: rest) with
          | none => "3"
          | some (_, q) => fcRender q.packaging)
    ∧ select_packaging [⟨some "P5", QVal.int 5⟩, ⟨some "P2", QVal.int 2⟩,
        ⟨some "P10", QVal.int 10⟩] = "P2"
    ∧ fcSelect [⟨some "P5", QVal.int 5⟩, ⟨some "P2", QVal.int 2⟩,
        ⟨some "P10", QVal.int 10⟩] = "P2" := by
  refine ⟨?_, ?_, by decide, by decide⟩
  · intro ps
    match ps with
    | [] => rfl
    | p :: rest =>
        have hne : (p :: rest).isEmpty = false := rfl
        rw [select_packaging, hne]
        simp only [Bool.false_eq_true, if_false]
        rw [show gncScan (p :: rest) (none, "EA")
            = match specBestGnc (p :: rest) with
              | none => (none, "EA")
              | some (m, s) => (some m, s) from gncScan_none (p :: rest)]
        match hs : specBestGnc (p :: rest) with
        | none => decide
        | some (m, s) => rfl
  · intro p rest
    match rest with
    | [] => rfl
    | q0 :: rest' =>
        have hp : fcSelect (p :: q0 :: rest')
            = fcRender (pyMinBy fcBaseQty p (q0 :: rest')).packaging := rfl
        rw [hp, pyMinBy_spec (q0 :: rest') p]
        match hs : specMinFc (q0 :: rest') with
        | none =>
            have h := specMinFc_isSome q0 rest'
            rw [hs] at h
            exact Bool.noConfusion h
        | some (m, qq) =>
            have hcons : specMinFc (p :: q0 :: rest')
                = if infLt m (fcBaseQty p) = true then some (m, qq)
                  else some (fcBaseQty p, p) := by
              rw [specMinFc, hs]
            rw [hcons]
            by_cases hlt : infLt m (fcBaseQty p) = true
            · simp [hlt]
            · simp [hlt]

/-- C5 counterexample: with candidates `A` (quantity 5, the only positive
one) and `B` (quantity −2), the claim predicts `A`; GNC indeed selects
`A`, but the FC multi-candidate path has no positivity filter and selects
`B`, so the claimed selection rule is false for the FC converter. -/
theorem packaging_selection_cex :
    fcSelect [⟨some "A", QVal.int 5⟩, ⟨some "B", QVal.int (-2)⟩] = "B"
    ∧ select_packaging [⟨some "A", QVal.int 5⟩, ⟨some "B", QVal.int (-2)⟩] = "A"
    ∧ ("B" : String) ≠ "A" :=
  ⟨rfl, rfl, by decide⟩

/-! ## Cache lemmas (for C6) -/

theorem resolveAllGo_calls_count (api : String → ApiResult) (k : String)
    (hk : k ≠ "") :
    ∀ (ms : List String) (st : RunState),
    ((resolveAllGo api ms st).2.calls.count k)
      = st.calls.count k
        + (if k ∈ ms.map pyStrip ∧ cacheLookup st.cache k = none
           then 1 else 0) := by
  intro ms
  induction ms with
  | nil => intro st; simp [resolveAllGo]
  | cons m rest ih =>
      intro st
      by_cases h1 : m = ""
      · have hr : resolve_packaging_via_api api st m = ("EA", st) := by
          rw [resolve_packaging_via_api, if_pos h1]
        have hsm : pyStrip m = "" := by rw [h1]; rfl
        simp only [resolveAllGo, hr]
        rw [ih st]
        simp [List.mem_cons, hsm, hk, Ne.symm hk]
      · by_cases h2 : pyStrip m = ""
        · have hr : resolve_packaging_via_api api st m = ("EA", st) := by
            simp [resolve_packaging_via_api, h1, h2]
          simp only [resolveAllGo, hr]
          rw [ih st]
          simp [List.mem_cons, h2, hk, Ne.symm hk]
        · match hc : cacheLookup st.cache (pyStrip m) with
          | some v =>
              have hr : resolve_packaging_via_api api st m = (v, st) := by
                simp [resolve_packaging_via_api, h1, h2, hc]
              simp only [resolveAllGo, hr]
              rw [ih st]
              by_cases hkm : k = pyStrip m
              · subst hkm
                simp [hc]
              · simp [List.mem_cons, hkm]
          | none =>
              have hr : resolve_packaging_via_api api st m
                  = (orEA (gncFresh (api (pyStrip m))),
                     ⟨(pyStrip m, orEA (gncFresh (api (pyStrip m)))) :: st.cache,
                      st.calls ++ [pyStrip m]⟩) := by
                simp [resolve_packaging_via_api, h1, h2, hc]
              simp only [resolveAllGo, hr]
              rw [ih ⟨(pyStrip m, orEA (gncFresh (api (pyStrip m)))) :: st.cache,
                st.calls ++ [pyStrip m]⟩]
              simp only [List.count_append, cacheLookup]
              by_cases hkm : k = pyStrip m
              · subst hkm
                simp [hc, List.mem_cons]
              · have hmk : ¬ pyStrip m = k := Ne.symm hkm
                simp [hkm, hmk, List.mem_cons]

theorem resolveAllGo_results (api : String → ApiResult) :
    ∀ (ms : List String) (st : RunState),
    (∀ key v, cacheLookup st.cache key = some v
        → v = orEA (gncFresh (api key))) →
    (resolveAllGo api ms st).1 = ms.map (resolvedValue api) := by
  intro ms
  induction ms with
  | nil => intro st _; rfl
  | cons m rest ih =>
      intro st hinv
      by_cases h1 : m = ""
      · have hr : resolve_packaging_via_api api st m = ("EA", st) := by
          rw [resolve_packaging_via_api, if_pos h1]
        have hsm : pyStrip m = "" := by rw [h1]; rfl
        simp only [resolveAllGo, hr]
        rw [ih st hinv]
        simp [resolvedValue, hsm]
      · by_cases h2 : pyStrip m = ""
        · have hr : resolve_packaging_via_api api st m = ("EA", st) := by
            simp [resolve_packaging_via_api, h1, h2]
          simp only [resolveAllGo, hr]
          rw [ih st hinv]
          simp [resolvedValue, h2]
        · match hc : cacheLookup st.cache (pyStrip m) with
          | some v =>
              have hr : resolve_packaging_via_api api st m = (v, st) := by
                simp [resolve_packaging_via_api, h1, h2, hc]
              simp only [resolveAllGo, hr]
              rw [ih st hinv]
              have hv := hinv (pyStrip m) v hc
              simp [resolvedValue, h2, hv]
          | none =>
              have hr : resolve_packaging_via_api api st m
                  = (orEA (gncFresh (api (pyStrip m))),
                     ⟨(pyStrip m, orEA (gncFresh (api (pyStrip m)))) :: st.cache,
                      st.calls ++ [pyStrip m]⟩) := by
                simp [resolve_packaging_via_api, h1, h2, hc]
              simp only [resolveAllGo, hr]
              rw [ih ⟨(pyStrip m, orEA (gncFresh (api (pyStrip m)))) :: st.cache,
                st.calls ++ [pyStrip m]⟩]
              · simp [resolvedValue, h2]
              · intro key v hkey
                simp only [cacheLookup] at hkey
                by_cases hkm : pyStrip m = key
                · rw [if_pos hkm] at hkey
                  cases hkey
                  rw [← hkm]
                · rw [if_neg hkm] at hkey
                  exact hinv key v hkey

/-- C6: within one conversion invocation (one fresh `PackagingCache`), a
trimmed material code that appears (non-blank) among the converted lines
triggers exactly one external lookup however often it recurs, every
resolution of it returns the value computed by that single lookup, and a
second conversion invocation starts from an empty cache, so a key occurring
in two invocations is looked up once per invocation — never shared. -/
theorem packaging_cache_single_lookup (api : String → ApiResult)
    (ms : List String) (k : String) (hk : k ≠ "") :
    ((convertResolveAll api ms).2.calls.count k
        = if k ∈ ms.map pyStrip then 1 else 0)
    ∧ (convertResolveAll api ms).1 = ms.map (resolvedValue api)
    ∧ (∀ ms' : List String,
        ((convertResolveAll api ms).2.calls
            ++ (convertResolveAll api ms').2.calls).count k
          = (if k ∈ ms.map pyStrip then 1 else 0)
            + (if k ∈ ms'.map pyStrip then 1 else 0)) := by
  have hcount : ∀ ns : List String,
      (convertResolveAll api ns).2.calls.count k
        = if k ∈ ns.map pyStrip then 1 else 0 := by
    intro ns
    rw [convertResolveAll, resolveAllGo_calls_count api k hk ns ⟨[], []⟩]
    simp [cacheLookup]
  refine ⟨hcount ms, ?_, ?_⟩
  · rw [convertResolveAll]
    exact resolveAllGo_results api ms ⟨[], []⟩ (by intro key v h; cases h)
  · intro ms'
    rw [List.count_append, hcount ms, hcount ms']

/-- C6 witness: material `M1` occurs twice (once with trailing whitespace)
in one invocation and again in a second invocation: one call in the first
run, one in the second, identical resolved values. -/
theorem packaging_cache_single_lookup_witness :
    ((convertResolveAll (fun _ => ApiResult.failure)
        ["M1 ", "M1", "", "M2"]).2.calls.count "M1" = 1)
    ∧ ((convertResolveAll (fun _ => ApiResult.failure) ["M1 ", "M1", "", "M2"]).2.calls
        ++ (convertResolveAll (fun _ => ApiResult.failure) ["M1"]).2.calls).count "M1"
      = 2 := by
  constructor
  · rw [(packaging_cache_single_lookup (fun _ => ApiResult.failure)
      ["M1 ", "M1", "", "M2"] "M1" (by decide)).1]
    decide
  · rw [(packaging_cache_single_lookup (fun _ => ApiResult.failure)
      ["M1 ", "M1", "", "M2"] "M1" (by decide)).2.2 ["M1"]]
    decide

/-- C1 (code evaluated at the failing and the specified inputs): with
`max_attempts = 3` and every attempt answered `304 Not Modified` — a
non-2xx status — the loop breaks after exactly 1 attempt with no sleeps
and the unit is recorded successful (`resp.ok` is status < 400), while the
very same unit's notification row reports `Failed`; with attempts
answering 500, 500, 200 the unit is recorded success after exactly 3
attempts with 2 inter-attempt sleeps, as the claim states. -/
theorem post_retry_behavior :
    ((postWithRetry (fun _ => AttemptOutcome.response 304 "Not Modified") 3).2.1 = 1
      ∧ (postWithRetry (fun _ => AttemptOutcome.response 304 "Not Modified") 3).2.2 = 0
      ∧ unitPostOk (postWithRetry (fun _ => AttemptOutcome.response 304 "Not Modified") 3).1 = true
      ∧ is2xxOpt (some 304) = false
      ∧ (emailRow (UnitOutcome.posted
          (postWithRetry (fun _ => AttemptOutcome.response 304 "Not Modified") 3).1)).1
        = "Failed")
    ∧ ((postWithRetry (fun i => if i = 3 then AttemptOutcome.response 200 "ok"
          else AttemptOutcome.response 500 "err") 3).2.1 = 3
      ∧ (postWithRetry (fun i => if i = 3 then AttemptOutcome.response 200 "ok"
          else AttemptOutcome.response 500 "err") 3).2.2 = 2
      ∧ unitPostOk (postWithRetry (fun i => if i = 3 then AttemptOutcome.response 200 "ok"
          else AttemptOutcome.response 500 "err") 3).1 = true) := by
  exact ⟨⟨rfl, rfl, rfl, rfl, rfl⟩, rfl, rfl, rfl⟩

theorem fileSuccess_foldl (us : List UnitOutcome) :
    ∀ b : Bool, us.foldl (fun ok u => ok && unitOk u) b = (b && us.all unitOk) := by
  induction us with
  | nil => intro b; simp
  | cons u rest ih =>
      intro b
      rw [List.foldl_cons, ih (b && unitOk u)]
      simp [Bool.and_assoc]

/-- C2: a file's recorded outcome is success iff every unit succeeded; a
file whose every unit's API call ended 2xx is routed to `/Incoming/Archives`
and never to `/Incoming/DeadLetter`; a failed file is routed to
`/Incoming/DeadLetter` with a notification row for every unit and the
split-mode email sent; when the source `remove` fails (the earlier steps
succeeding) a `rename` into the destination is attempted; and the move —
a total action trace, every failure inside it merely logged — never
changes the recorded outcome, whatever the SFTP oracle does. -/
theorem file_outcome_and_move (us : List UnitOutcome) (w w' : MoveWorld) :
    (fileSuccess us = us.all unitOk)
    ∧ ((∀ u ∈ us, ∃ st, u = UnitOutcome.posted st ∧ is2xxOpt st.status = true) →
        (processFile us w).1 = true
          ∧ moveDest (processFile us w).1 = "/Incoming/Archives"
          ∧ moveDest (processFile us w).1 ≠ "/Incoming/DeadLetter")
    ∧ (fileSuccess us = false →
        moveDest (processFile us w).1 = "/Incoming/DeadLetter"
          ∧ (emailRows us).length = us.length
          ∧ (us ≠ [] → splitEmailSent us = true))
    ∧ ((w.localPresent = true ∨ w.downloadOk = true) → w.uploadOk = true →
        w.removeOk = false →
        MoveAction.rename (moveDest (fileSuccess us))
          ∈ move_sftp_file w (fileSuccess us))
    ∧ (processFile us w).1 = (processFile us w').1 := by
  have hall : fileSuccess us = us.all unitOk := by
    rw [fileSuccess, fileSuccess_foldl us true, Bool.true_and]
  refine ⟨hall, ?_, ?_, ?_, rfl⟩
  · intro h
    have hs : fileSuccess us = true := by
      rw [hall, List.all_eq_true]
      intro u hu
      obtain ⟨st, rfl, h2⟩ := h u hu
      simp [unitOk, unitPostOk, h2]
    refine ⟨hs, ?_, ?_⟩
    · show moveDest (fileSuccess us) = _
      rw [hs]
      rfl
    · show moveDest (fileSuccess us) ≠ _
      rw [hs]
      decide
  · intro h
    refine ⟨?_, by simp [emailRows], ?_⟩
    · show moveDest (fileSuccess us) = _
      rw [h]
      rfl
    · intro hne
      rw [splitEmailSent, emailRows]
      simp [hne]
  · intro hld hup hrm
    obtain ⟨lp, dl, up, rm, rn⟩ := w
    simp only at hld hup hrm
    subst hup hrm
    cases lp <;> cases dl <;> cases rn <;>
      simp_all [move_sftp_file, List.mem_append, List.mem_cons]

/-- C2 witness: concrete applications of `file_outcome_and_move`: an
all-2xx file is archived, an all-500 file is dead-lettered, and a failed
remove leads to a rename attempt. -/
theorem file_outcome_and_move_witness :
    moveDest (processFile [UnitOutcome.posted ⟨some 200, "ok", none⟩]
        ⟨true, true, true, false, true⟩).1 = "/Incoming/Archives"
    ∧ moveDest (processFile [UnitOutcome.posted ⟨some 500, "err", some "HTTP"⟩]
        ⟨true, true, true, false, true⟩).1 = "/Incoming/DeadLetter"
    ∧ MoveAction.rename (moveDest (fileSuccess
          [UnitOutcome.posted ⟨some 500, "err", some "HTTP"⟩]))
        ∈ move_sftp_file ⟨true, true, true, false, true⟩
            (fileSuccess [UnitOutcome.posted ⟨some 500, "err", some "HTTP"⟩]) := by
  refine ⟨?_, ?_, ?_⟩
  · exact ((file_outcome_and_move [UnitOutcome.posted ⟨some 200, "ok", none⟩]
      ⟨true, true, true, false, true⟩ ⟨true, true, true, false, true⟩).2.1
      (by
        intro u hu
        rw [List.mem_singleton] at hu
        exact ⟨⟨some 200, "ok", none⟩, hu, rfl⟩)).2.1
  · exact ((file_outcome_and_move [UnitOutcome.posted ⟨some 500, "err", some "HTTP"⟩]
      ⟨true, true, true, false, true⟩ ⟨true, true, true, false, true⟩).2.2.1
      rfl).1
  · exact (file_outcome_and_move [UnitOutcome.posted ⟨some 500, "err", some "HTTP"⟩]
      ⟨true, true, true, false, true⟩ ⟨true, true, true, false, true⟩).2.2.2.1
      (Or.inl rfl) rfl rfl

/-- C8: nothing without data is ever delivered, the summary attachments all
have data, and the summary email goes out only when at least one artifact
with data was produced (empty or blank artifacts are skipped, not failed —
the run is total over the artifact list). -/
theorem outbound_empty_skip (arts : List OutArtifact) :
    (∀ c ∈ deliveryAttempts arts, file_has_data c = true)
    ∧ (∀ c ∈ generated_files arts, file_has_data c = true)
    ∧ (summaryEmailSent arts = true → ∃ a ∈ arts, artifactHasData a = true) := by
  refine ⟨?_, ?_, ?_⟩
  · intro c hc
    rw [deliveryAttempts, List.mem_filterMap] at hc
    obtain ⟨a, _, ha⟩ := hc
    match h : a.converted with
    | some c' =>
        rw [h] at ha
        dsimp only at ha
        by_cases hd : file_has_data c' = true
        · rw [if_pos hd] at ha
          cases ha
          exact hd
        · rw [if_neg hd] at ha
          cases ha
    | none => rw [h] at ha; cases ha
  · intro c hc
    rw [generated_files, List.mem_filterMap] at hc
    obtain ⟨a, _, ha⟩ := hc
    match h : a.converted with
    | some c' =>
        rw [h] at ha
        dsimp only at ha
        by_cases hd : (file_has_data c' && a.deliverOk) = true
        · rw [if_pos hd] at ha
          cases ha
          exact (Bool.and_eq_true _ _ ▸ hd).1
        · rw [if_neg hd] at ha
          cases ha
    | none => rw [h] at ha; cases ha
  · intro h
    rw [summaryEmailSent, Bool.not_eq_eq_eq_not, Bool.not_true,
      List.isEmpty_eq_false_iff_exists_mem] at h
    obtain ⟨c, hc⟩ := h
    rw [generated_files, List.mem_filterMap] at hc
    obtain ⟨a, hmem, ha⟩ := hc
    refine ⟨a, hmem, ?_⟩
    match hcv : a.converted with
    | some c' =>
        rw [hcv] at ha
        dsimp only at ha
        by_cases hd : (file_has_data c' && a.deliverOk) = true
        · rw [artifactHasData, hcv]
          exact (Bool.and_eq_true _ _ ▸ hd).1
        · rw [if_neg hd] at ha
          cases ha
    | none => rw [hcv] at ha; cases ha

/-- C8 witness: a blank artifact and a data-bearing artifact — the
delivered artifact has data (applied via `outbound_empty_skip`). -/
theorem outbound_empty_skip_witness :
    file_has_data ["DATA"] = true
    ∧ ∃ a ∈ ([⟨some ["", "  "], true⟩, ⟨some ["DATA"], true⟩] : List OutArtifact),
        artifactHasData a = true := by
  constructor
  · exact (outbound_empty_skip
      [⟨some ["", "  "], true⟩, ⟨some ["DATA"], true⟩]).1 ["DATA"] (by decide)
  · exact (outbound_empty_skip
      [⟨some ["", "  "], true⟩, ⟨some ["DATA"], true⟩]).2.2 (by decide)

/-- C9: a corrupt or unreadable cache file behaves exactly like a missing
one (a miss, not an error); an unexpired cached token is returned as-is
with nothing persisted and no request made; on a miss or an expired cache
a failed token request is fatal (the error propagates); and a successful
exchange persists the token with expiry `now + expires_in − 30` before
returning it. -/
theorem get_token_cache_policy (req : TokenRequest) (now : Int) :
    (get_token CacheRead.corrupt req now = get_token CacheRead.missing req now
      ∧ get_token CacheRead.unreadable req now = get_token CacheRead.missing req now)
    ∧ (∀ (tok : String) (exp : Int), exp > now →
        get_token (CacheRead.valid (some tok) (some exp)) req now
          = Except.ok (tok, none))
    ∧ (∀ m : String, get_token CacheRead.missing (TokenRequest.failure m) now
        = Except.error m)
    ∧ (∀ (r : TokenResponse) (tok : String), r.access_token = some tok →
        get_token CacheRead.missing (TokenRequest.ok r) now
          = Except.ok (tok, some (tok, now + r.expires_in.getD 3600 - 30)))
    ∧ (∀ (tok : String) (exp : Int) (r : TokenResponse) (t : String),
        ¬ exp > now → r.access_token = some t →
        get_token (CacheRead.valid (some tok) (some exp)) (TokenRequest.ok r) now
          = Except.ok (t, some (t, now + r.expires_in.getD 3600 - 30))) := by
  refine ⟨⟨rfl, rfl⟩, ?_, fun m => rfl, ?_, ?_⟩
  · intro tok exp h
    simp [get_token, loadCache, h]
  · intro r tok h
    simp [get_token, loadCache, h]
  · intro tok exp r t hexp h
    simp [get_token, loadCache, hexp, h]

/-- C9 witness: concrete applications of `get_token_cache_policy`. -/
theorem get_token_cache_policy_witness :
    get_token (CacheRead.valid (some "T") (some 200))
        (TokenRequest.failure "boom") 100 = Except.ok ("T", none)
    ∧ get_token CacheRead.missing
        (TokenRequest.ok ⟨some "T2", some 1000⟩) 100
      = Except.ok ("T2", some ("T2", 1070))
    ∧ get_token CacheRead.missing (TokenRequest.failure "boom") 100
      = Except.error "boom" := by
  refine ⟨?_, ?_, ?_⟩
  · exact (get_token_cache_policy (TokenRequest.failure "boom") 100).2.1
      "T" 200 (by decide)
  · exact ((get_token_cache_policy (TokenRequest.ok ⟨some "T2", some 1000⟩)
      100).2.2.2.1 ⟨some "T2", some 1000⟩ "T2" rfl).trans rfl
  · exact (get_token_cache_policy (TokenRequest.failure "boom") 100).2.2.1 "boom"

end JTL
